import Mathlib

/-!
Verification development for the resolution-based satisfiability checker in
`satisfiability.py`.

The embedding mirrors the Python source closely:

* `PyVal` models the values the Python function `unify` operates on: bare
  strings (variable or constant names), `Literal` objects (predicate name plus
  argument list, also used for nested function terms), and Python lists.
  Python lists are encoded with the `nil` / `cons` constructors, so a Python
  list `[a, b]` is `PyVal.cons a (PyVal.cons b PyVal.nil)`.  Structural
  equality of `PyVal` coincides with Python `==` on these values (cross-type
  comparisons are `False` in Python, and different constructors are unequal
  here).
* `URes` models the result of `unify`: a substitution dictionary (`ok`),
  Python `None` (`pynone`), Python `False` (`pyfalse`, returned by the
  occurs-check branch of `unify_var`), and an uncaught exception (`crash`,
  covering `IndexError` on `x[0]` of an empty list, `TypeError` on membership
  tests against non-dict values, and `RecursionError` when the recursion fuel
  runs out).
* The substitution dictionary `theta` only ever acquires string keys (every
  binding in `unify_var` assigns `theta[var]` with `var` drawn from the
  variable table), so it is modelled as an association list from `String` to
  `PyVal` with insert-or-overwrite semantics.
* The mutable global `VARIABLES` list is threaded through every function that
  reads or extends it (the fresh-variable mint in `unify_var` appends to it).
* Python `set` values (resolvent sets, the knowledge base, the processed-pair
  record) are modelled as duplicate-free lists built with `setAdd`; a fixed
  iteration order is chosen, which is one faithful sequentialisation of a
  Python run.
-/

/-- A Python value handled by `unify`: a bare string, a `Literal` object
(predicate name and argument list, also used for nested function terms), or a
list encoded as a `nil`/`cons` chain. -/
inductive PyVal : Type where
  | str : String → PyVal
  | lit : String → PyVal → PyVal
  | nil : PyVal
  | cons : PyVal → PyVal → PyVal
deriving DecidableEq, Repr

/-- The substitution dictionary `theta`: an association list from variable
names to values (Python dict with string keys). -/
abbrev Theta := List (String × PyVal)

/-- Result of `unify`: a dictionary, Python `None`, Python `False` (the value
returned by the occurs-check branch of `unify_var`), or an uncaught
exception. -/
inductive URes : Type where
  | ok : Theta → URes
  | pynone : URes
  | pyfalse : URes
  | crash : URes
deriving DecidableEq, Repr

/-- Dictionary lookup `theta[k]` for a string key. -/
def dlook (d : Theta) (k : String) : Option PyVal :=
  match d.find? (fun kv => kv.1 = k) with
  | some kv => some kv.2
  | none => none

/-- Dictionary assignment `theta[k] = v` (overwrite if the key exists,
otherwise append). -/
def dinsert (d : Theta) (k : String) (v : PyVal) : Theta :=
  if d.any (fun kv => kv.1 = k) then
    d.map (fun kv => if kv.1 = k then (k, v) else kv)
  else d ++ [(k, v)]

/-- Python `x in VARIABLES`: true only for a string that is a member of the
variable table (a `Literal` or a list never equals a string). -/
def isVarIn (x : PyVal) (vars : List String) : Bool :=
  match x with
  | .str s => decide (s ∈ vars)
  | _ => false

/-- The string of a `PyVal.str`; only used where `isVarIn` guarantees it. -/
def varName (x : PyVal) : String :=
  match x with
  | .str s => s
  | _ => ""

/-- Python `x[0] + str(i)` candidate test loop of the fresh-variable mint in
`unify_var` (lines 138-142): starting at index `i`, the first name of the form
first-char-of-x followed by a decimal index that is not in the variable
table. -/
def mintAux : Nat → Nat → String → List String → String
  | 0, i, pre, _ => pre ++ toString i
  | Nat.succ f, i, pre, vars =>
    let cand := pre ++ toString i
    if cand ∈ vars then mintAux f (i + 1) pre vars else cand

/-- The fresh variable name minted by `unify_var` when unifying two distinct
free variables: first character of `x` plus the least decimal index whose
combination is not yet in the variable table. -/
def mint (s : String) (vars : List String) : String :=
  mintAux (vars.length + 1) 0 (String.mk [s.front]) vars

/-- `occur_check(var, x)` from the source, lines 152-175.  The `Bool` mode
argument distinguishes checking a single value (`false`) from iterating over
the elements of an argument chain (`true`).  Note the source quirk: a list of
length at most one is never inspected (its single element is skipped). -/
def occur_check_aux : String → Bool → PyVal → Bool
  | v, false, .str s => v = s
  | v, false, .lit p args => p = v || occur_check_aux v true args
  | _, false, .nil => false
  | v, false, .cons a rest =>
    -- the source tests `len(x) > 1` before iterating the elements
    if rest matches .cons _ _ then
      occur_check_aux v false a || occur_check_aux v true rest
    else false
  | v, true, .cons a rest => occur_check_aux v false a || occur_check_aux v true rest
  | _, true, _ => false

/-- `occur_check(var, x)`: is the variable `var` contained in `x`. -/
def occur_check (v : String) (x : PyVal) : Bool := occur_check_aux v false x

/-- One Python `Literal` object as it appears in clauses: predicate name and
argument list (a `nil`/`cons` chain of strings and nested literals). -/
structure Literal : Type where
  Predicate : String
  Arguments : PyVal
deriving DecidableEq, Repr

/-- A clause: the Python tuple of literals (order and duplicates exactly as in
the tuple). -/
abbrev Clause := List Literal

/-- `Literal.substitute` body (lines 75-84), over a value (`mode = false`) or
over an argument chain (`mode = true`): a string argument that is a key of
`theta` is replaced by its bound value (not substituted further); a nested
literal is substituted recursively; everything else is kept. -/
def substAux : Theta → Bool → PyVal → PyVal
  | d, false, .str s =>
    match dlook d s with
    | some v => v
    | none => .str s
  | d, false, .lit p args => .lit p (substAux d true args)
  | _, false, x => x
  | d, true, .cons a rest => .cons (substAux d false a) (substAux d true rest)
  | _, true, x => x

/-- `Literal.substitute(theta)`: rebuild the literal with every argument
substituted through `theta` via `substAux`. -/
def Literal.substitute (l : Literal) (d : Theta) : Literal :=
  ⟨l.Predicate, substAux d true l.Arguments⟩

/-- The complement predicate name (inlined twice in the source, lines 211-214
and 271-275): strip a leading negation marker, otherwise add one. -/
def compliment (p : String) : String :=
  if p.front = '!' then p.drop 1 else "!" ++ p

/-- A pending call in the mutual recursion of `unify` and `unify_var`:
`u x y` is `unify(x, y, ·)` and `uv v x` is `unify_var(v, x, ·)`. -/
inductive UCall : Type where
  | u : PyVal → PyVal → UCall
  | uv : String → PyVal → UCall
deriving DecidableEq, Repr

/-- The mutually recursive pair `unify` (lines 87-114) and `unify_var`
(lines 117-149), made a single function on a call descriptor, with a fuel
bound on the recursion depth (exhausted fuel models `RecursionError`, i.e. a
crash).  The state `vars` is the mutable global `VARIABLES` list.

`unify(x, y, theta)`:
  `None` propagates; equal values return `theta` unchanged (including a
  `theta` that is `False`); a variable on either side delegates to
  `unify_var`; two literals unify their predicate names and then their
  argument lists; two lists unify `x[1:]` against `y[1:]` first, then `x[0]`
  against `y[0]` with the resulting substitution (Python evaluates the inner
  call before the outer one), and indexing an empty list raises; anything else
  returns `None`.

`unify_var(var, x, theta)`:
  a `theta` that is `False` raises on the membership test; a bound `var`
  unifies its value against `x`; a bound `x` unifies `var` against the bound
  value (membership of an unhashable list raises); an occurs-check hit returns
  `False`; a distinct free variable `x` mints a fresh variable, registers it
  in the variable table, and binds both `var` and `x` to it; otherwise `var`
  is bound to `x`. -/
def unifyAux : Nat → UCall → URes → List String → URes × List String
  | 0, _, _, vars => (.crash, vars)
  | Nat.succ fuel, .u x y, θ, vars =>
    match θ with
    | .crash => (.crash, vars)
    | .pynone => (.pynone, vars)
    | _ =>
      if x = y then (θ, vars)
      else if isVarIn x vars then unifyAux fuel (.uv (varName x) y) θ vars
      else if isVarIn y vars then unifyAux fuel (.uv (varName y) x) θ vars
      else
        match x, y with
        | .lit px ax, .lit py ay =>
          let r := unifyAux fuel (.u (.str px) (.str py)) θ vars
          unifyAux fuel (.u ax ay) r.1 r.2
        | .nil, .cons _ _ => (.crash, vars)
        | .cons _ _, .nil => (.crash, vars)
        | .cons hx tx, .cons hy ty =>
          let r := unifyAux fuel (.u tx ty) θ vars
          unifyAux fuel (.u hx hy) r.1 r.2
        | _, _ => (.pynone, vars)
  | Nat.succ fuel, .uv v x, θ, vars =>
    match θ with
    | .ok d =>
      match dlook d v with
      | some val => unifyAux fuel (.u val x) (.ok d) vars
      | none =>
        match x with
        | .nil => (.crash, vars)
        | .cons _ _ => (.crash, vars)
        | _ =>
          match (match x with | .str s => dlook d s | _ => none) with
          | some val => unifyAux fuel (.u (.str v) val) (.ok d) vars
          | none =>
            if occur_check v x then (.pyfalse, vars)
            else
              match x with
              | .str s =>
                if s ∈ vars ∧ s ≠ v then
                  let nv := mint s vars
                  (.ok (dinsert (dinsert d v (.str nv)) s (.str nv)), vars ++ [nv])
                else (.ok (dinsert d v x), vars)
              | _ => (.ok (dinsert d v x), vars)
    | _ => (.crash, vars)

/-- `unify(x, y, theta)` with recursion fuel and the variable table. -/
def unify (fuel : Nat) (x y : PyVal) (θ : URes) (vars : List String) :
    URes × List String :=
  unifyAux fuel (.u x y) θ vars

/-- `unify_var(var, x, theta)` with recursion fuel and the variable table. -/
def unify_var (fuel : Nat) (v : String) (x : PyVal) (θ : URes) (vars : List String) :
    URes × List String :=
  unifyAux fuel (.uv v x) θ vars

/-- Insert into a Python set modelled as a duplicate-free list. -/
def setAdd {α : Type} [DecidableEq α] (s : List α) (a : α) : List α :=
  if a ∈ s then s else s ++ [a]

/-- Union of two Python sets modelled as lists: `a.union(b)`. -/
def setUnion {α : Type} [DecidableEq α] (a b : List α) : List α :=
  b.foldl setAdd a

/-- `make_clause(literal, literal2, clause_one, clause_two)` (lines 178-199):
the literals of `clause_one` other than `literal`, in order, followed by the
literals of `clause_two` other than `literal2`, in order. -/
def make_clause (literal literal2 : Literal) (clause_one clause_two : Clause) : Clause :=
  let new_one := clause_one.foldl (fun acc t => if t ≠ literal then acc ++ [t] else acc) []
  let new_two := clause_two.foldl (fun acc t => if t ≠ literal2 then acc ++ [t] else acc) []
  new_one ++ new_two

/-- Whether an argument list is non-empty (Python truthiness of a list). -/
def argsNonEmpty (x : PyVal) : Bool :=
  match x with
  | .cons _ _ => true
  | _ => false

/-- Applying `substitute` with `theta = False` over a merged clause (the
resolver does this whenever `unify` returned `False`): a literal with an empty
argument list is rebuilt unchanged, but the first literal with any argument
raises `TypeError` on the membership test `arg in theta`. -/
def substituteFalse : Clause → Option Clause
  | [] => some []
  | l :: rest =>
    match l.Arguments with
    | .nil =>
      match substituteFalse rest with
      | some r => some (l :: r)
      | none => none
    | _ => none

/-- Inner loop of `PL_Resolve` (lines 215-232): scan `clause_two` for literals
whose predicate is the complement of the current literal of `clause_one`.
With both argument lists non-empty the pair is unified (a `None` result is
skipped, a dictionary is applied to the merged clause, a `False` result is
treated as a success by the `is not None` test and applying it raises unless
the merged clause is argument-free, and a crash propagates); with either
argument list empty the merged clause is added directly.  Returns `none` on an
uncaught exception, otherwise the resolvent set and the updated variable
table. -/
def resolve_inner (ufuel : Nat) (literal : Literal) (compl : String)
    (clause_one clause_two : Clause) :
    List Literal → List Clause → List String → Option (List Clause × List String)
  | [], resolvents, vars => some (resolvents, vars)
  | literal2 :: rest, resolvents, vars =>
    if compl = literal2.Predicate then
      if argsNonEmpty literal.Arguments && argsNonEmpty literal2.Arguments then
        let r := unify ufuel literal.Arguments literal2.Arguments (.ok []) vars
        match r.1 with
        | .crash => none
        | .pynone =>
          resolve_inner ufuel literal compl clause_one clause_two rest resolvents r.2
        | .ok d =>
          let newC := make_clause literal literal2 clause_one clause_two
          let copy := newC.map (fun nl => nl.substitute d)
          resolve_inner ufuel literal compl clause_one clause_two rest
            (setAdd resolvents copy) r.2
        | .pyfalse =>
          let newC := make_clause literal literal2 clause_one clause_two
          match substituteFalse newC with
          | some copy =>
            resolve_inner ufuel literal compl clause_one clause_two rest
              (setAdd resolvents copy) r.2
          | none => none
      else
        let newC := make_clause literal literal2 clause_one clause_two
        resolve_inner ufuel literal compl clause_one clause_two rest
          (setAdd resolvents newC) vars
    else resolve_inner ufuel literal compl clause_one clause_two rest resolvents vars

/-- Outer loop of `PL_Resolve` (lines 209-233): for each literal of
`clause_one`, scan `clause_two` with its complement predicate name. -/
def resolve_outer (ufuel : Nat) (clause_one clause_two : Clause) :
    List Literal → List Clause → List String → Option (List Clause × List String)
  | [], resolvents, vars => some (resolvents, vars)
  | literal :: rest, resolvents, vars =>
    match resolve_inner ufuel literal (compliment literal.Predicate)
        clause_one clause_two clause_two resolvents vars with
    | none => none
    | some rv => resolve_outer ufuel clause_one clause_two rest rv.1 rv.2

/-- `PL_Resolve(clause_one, clause_two)` (lines 202-233): the set of clauses
obtained by resolving the two clauses, or `none` on an uncaught exception. -/
def PL_Resolve (ufuel : Nat) (clause_one clause_two : Clause) (vars : List String) :
    Option (List Clause × List String) :=
  resolve_outer ufuel clause_one clause_two clause_one [] vars

/-- `get_pairs(originalClause, compliment, KB)` (lines 236-255): every clause
of the knowledge base other than `originalClause` containing a literal whose
predicate name equals `compl`, collected in knowledge-base order. -/
def get_pairs (originalClause : Clause) (compl : String) (KB : List Clause) :
    List Clause :=
  KB.foldl
    (fun matched clause =>
      clause.foldl
        (fun ms literal =>
          if literal.Predicate = compl ∧ clause ∉ ms ∧ clause ≠ originalClause
          then ms ++ [clause] else ms)
        matched)
    []

/-- The per-clause match computation of `PL_Resolution` (lines 269-276): the
accumulator `matched` is overwritten on every literal, so only the matches of
the last literal of the clause survive (an empty clause keeps the initial
empty set). -/
def matched_for (clause : Clause) (KB : List Clause) : List Clause :=
  clause.foldl (fun _m literal => get_pairs clause (compliment literal.Predicate) KB) []

/-- An ordered pair of clauses as recorded in `pairs` and `processed`. -/
abbrev ClausePair := Clause × Clause

/-- The match loop of `PL_Resolution` (lines 277-283): for each match of a
clause, if neither orientation of the pair is in the processed record, append
the pair to the round candidates and record both orientations as processed. -/
def add_pairs (clause : Clause) :
    List Clause → List ClausePair × List ClausePair → List ClausePair × List ClausePair
  | [], pp => pp
  | m :: rest, pp =>
    if (clause, m) ∈ pp.2 ∨ (m, clause) ∈ pp.2 then add_pairs clause rest pp
    else add_pairs clause rest (pp.1 ++ [(clause, m)], pp.2 ++ [(clause, m), (m, clause)])

/-- The candidate-collection phase of one round of `PL_Resolution`
(lines 268-283): scan every clause of the knowledge base, compute its (last
literal only) matches, and extend the candidate list and processed record. -/
def collect_pairs :
    List Clause → List Clause → List ClausePair × List ClausePair →
      List ClausePair × List ClausePair
  | [], _, pp => pp
  | clause :: rest, KB, pp =>
    collect_pairs rest KB (add_pairs clause (matched_for clause KB) pp)

/-- Outcome of the resolution phase of one round. -/
inductive RoundRes : Type where
  | crash : RoundRes
  | emptyClause : RoundRes
  | done : List Clause → List String → RoundRes
deriving Repr

/-- The resolution phase of one round of `PL_Resolution` (lines 284-289):
resolve every candidate pair in order; return immediately when the empty
clause appears among the resolvents; otherwise union the resolvents into the
round accumulator `new`. -/
def resolve_pairs (ufuel : Nat) :
    List ClausePair → List Clause → List String → RoundRes
  | [], newClauses, vars => .done newClauses vars
  | p :: rest, newClauses, vars =>
    match PL_Resolve ufuel p.1 p.2 vars with
    | none => .crash
    | some rv =>
      if ([] : Clause) ∈ rv.1 then .emptyClause
      else resolve_pairs ufuel rest (setUnion newClauses rv.1) rv.2

/-- The round loop of `PL_Resolution` (lines 258-293), with a fuel bound on
the number of rounds, instrumented with a log of every candidate pair handed
to the resolution phase.  Returns `(some false, log)` when the empty clause is
derived, `(some true, log)` at a fixpoint, and `(none, log)` on an uncaught
exception or when the round fuel runs out. -/
def PL_Resolution_rounds :
    Nat → Nat → List Clause → List ClausePair → List String → List ClausePair →
      Option Bool × List ClausePair
  | 0, _, _, _, _, log => (none, log)
  | Nat.succ fuel, ufuel, KB, processed, vars, log =>
    let pp := collect_pairs KB KB ([], processed)
    match resolve_pairs ufuel pp.1 [] vars with
    | .crash => (none, log ++ pp.1)
    | .emptyClause => (some false, log ++ pp.1)
    | .done newClauses vars2 =>
      if ∀ c ∈ newClauses, c ∈ KB then (some true, log ++ pp.1)
      else PL_Resolution_rounds fuel ufuel (setUnion KB newClauses) pp.2 vars2 (log ++ pp.1)

/-- `PL_Resolution(KB)` (lines 258-293): `some true` if the knowledge base is
found satisfiable, `some false` if the empty clause is derived, `none` on an
uncaught exception or exhausted fuel. -/
def PL_Resolution (fuel ufuel : Nat) (KB : List Clause) (vars : List String) :
    Option Bool :=
  (PL_Resolution_rounds fuel ufuel KB [] vars []).1

/-- Modelled from the spec: step 6 of the unification algorithm in §4.2
prescribes, for two argument lists, unifying the first elements first and then
the remaining tails under the resulting substitution, with an empty-list base
case returning `theta` unchanged and incompatible shapes failing (step 7).
This variant differs from `unifyAux` only in the list-list case and exists to
compare the prescribed processing order with the order of the source. -/
def unifySpecAux : Nat → UCall → URes → List String → URes × List String
  | 0, _, _, vars => (.crash, vars)
  | Nat.succ fuel, .u x y, θ, vars =>
    match θ with
    | .crash => (.crash, vars)
    | .pynone => (.pynone, vars)
    | _ =>
      if x = y then (θ, vars)
      else if isVarIn x vars then unifySpecAux fuel (.uv (varName x) y) θ vars
      else if isVarIn y vars then unifySpecAux fuel (.uv (varName y) x) θ vars
      else
        match x, y with
        | .lit px ax, .lit py ay =>
          let r := unifySpecAux fuel (.u (.str px) (.str py)) θ vars
          unifySpecAux fuel (.u ax ay) r.1 r.2
        | .nil, .cons _ _ => (.pynone, vars)
        | .cons _ _, .nil => (.pynone, vars)
        | .cons hx tx, .cons hy ty =>
          let r := unifySpecAux fuel (.u hx hy) θ vars
          unifySpecAux fuel (.u tx ty) r.1 r.2
        | _, _ => (.pynone, vars)
  | Nat.succ fuel, .uv v x, θ, vars =>
    match θ with
    | .ok d =>
      match dlook d v with
      | some val => unifySpecAux fuel (.u val x) (.ok d) vars
      | none =>
        match x with
        | .nil => (.crash, vars)
        | .cons _ _ => (.crash, vars)
        | _ =>
          match (match x with | .str s => dlook d s | _ => none) with
          | some val => unifySpecAux fuel (.u (.str v) val) (.ok d) vars
          | none =>
            if occur_check v x then (.pyfalse, vars)
            else
              match x with
              | .str s =>
                if s ∈ vars ∧ s ≠ v then
                  let nv := mint s vars
                  (.ok (dinsert (dinsert d v (.str nv)) s (.str nv)), vars ++ [nv])
                else (.ok (dinsert d v x), vars)
              | _ => (.ok (dinsert d v x), vars)
    | _ => (.crash, vars)

/-- Modelled from the spec: `unify` with the list-processing order of §4.2
step 6 (first elements first, then the tails). -/
def unifySpec (fuel : Nat) (x y : PyVal) (θ : URes) (vars : List String) :
    URes × List String :=
  unifySpecAux fuel (.u x y) θ vars

/-- The propositional atom P. -/
def litP : Literal := ⟨"P", .nil⟩
/-- The negated propositional atom !P. -/
def litNP : Literal := ⟨"!P", .nil⟩
/-- The propositional atom Q. -/
def litQ : Literal := ⟨"Q", .nil⟩
/-- The negated propositional atom !Q. -/
def litNQ : Literal := ⟨"!Q", .nil⟩
/-- The propositional atom R. -/
def litR : Literal := ⟨"R", .nil⟩

/-- C1: REFUTED by the code.  The claim states that whenever
`unify(x, y, {})` succeeds with substitution theta, applying theta to `x` and
to `y` yields structurally equal terms.  For the terms `x = P(y, x)` and
`y = P(f(x), c)` with variable table `[x, y]`, `unify` succeeds with
`theta = {x: c, y: f(x)}` (the code binds `y` to `f(x)` without resolving the
earlier binding `x: c`, and `substitute` replaces a bound argument by its
value without substituting into that value), so applying theta yields
`P(f(x), c)` on one side and `P(f(c), c)` on the other, which are not
structurally equal. -/
theorem C1_unify_soundness_fails :
    unify 32 (.lit "P" (.cons (.str "y") (.cons (.str "x") .nil)))
        (.lit "P" (.cons (.lit "f" (.cons (.str "x") .nil)) (.cons (.str "c") .nil)))
        (.ok []) ["x", "y"]
      = (.ok [("x", .str "c"), ("y", .lit "f" (.cons (.str "x") .nil))], ["x", "y"]) ∧
    Literal.substitute ⟨"P", .cons (.str "y") (.cons (.str "x") .nil)⟩
        [("x", .str "c"), ("y", .lit "f" (.cons (.str "x") .nil))]
      ≠ Literal.substitute
          ⟨"P", .cons (.lit "f" (.cons (.str "x") .nil)) (.cons (.str "c") .nil)⟩
          [("x", .str "c"), ("y", .lit "f" (.cons (.str "x") .nil))] :=
  ⟨rfl, by decide⟩

/-- C2: REFUTED by the code.  For the knowledge base `{(P, Q), (!P, R)}` the
clause `(!P, R)` contains the complement of the literal `P` of `(P, Q)` (as
`get_pairs` with the complement of `P` confirms), yet the candidate
collection of the round gathers no pair at all: the `matched` accumulator is
overwritten on every literal of a clause, so only the matches of the last
literal (here `Q`, respectively `R`, neither of which has a complement in the
knowledge base) survive, and `PL_Resolution` returns without resolving
anything. -/
theorem C2_only_last_literal_matches :
    collect_pairs [[litP, litQ], [litNP, litR]] [[litP, litQ], [litNP, litR]] ([], [])
      = ([], []) ∧
    get_pairs [litP, litQ] (compliment litP.Predicate) [[litP, litQ], [litNP, litR]]
      = [[litNP, litR]] ∧
    PL_Resolution 1 1 [[litP, litQ], [litNP, litR]] [] = some true :=
  ⟨rfl, rfl, rfl⟩

/-- C3 counterexample: resolving the clauses `(P, Q)` and `(P, !Q)` on the
complementary pair `Q` / `!Q` produces the resolvent tuple `(P, P)`, which
keeps the duplicate literal and is a different clause value than `(P)`; the
resolvent is therefore not the set union of the remainders under
collapse-duplicates clause semantics. -/
theorem C3_resolvent_keeps_duplicates_cex :
    PL_Resolve 1 [litP, litQ] [litP, litNQ] [] = some ([[litP, litP]], []) ∧
    ([litP, litP] : Clause) ≠ [litP] :=
  ⟨rfl, by decide⟩

/-- Helper for the amended C3: the filtering loops of `make_clause` are list
filters with the accumulated elements appended in order. -/
theorem foldl_keep_eq_filter (l : Literal) :
    ∀ (c : Clause) (acc : Clause),
      c.foldl (fun acc t => if t ≠ l then acc ++ [t] else acc) acc
        = acc ++ c.filter (fun t => decide (t ≠ l))
  | [], acc => by simp
  | t :: rest, acc => by
    by_cases h : t = l
    · have ih := foldl_keep_eq_filter l rest acc
      simp [h] at ih ⊢
      exact ih
    · have ih := foldl_keep_eq_filter l rest (acc ++ [t])
      simp [h] at ih ⊢
      exact ih

/-- C3 amended: the resolvent built by `make_clause` is the ordered
concatenation of the literals of `clause_one` other than `literal` with the
literals of `clause_two` other than `literal2`, preserving duplicates and
order; clauses are compared as ordered tuples, so resolvents with the same
literals in a different order or multiplicity are distinct clause values. -/
theorem C3_make_clause_is_ordered_concat
    (literal literal2 : Literal) (clause_one clause_two : Clause) :
    make_clause literal literal2 clause_one clause_two =
      clause_one.filter (fun t => decide (t ≠ literal)) ++
        clause_two.filter (fun t => decide (t ≠ literal2)) := by
  rw [make_clause]
  rw [foldl_keep_eq_filter literal clause_one []]
  rw [foldl_keep_eq_filter literal2 clause_two []]
  simp

/-- C4: REFUTED by the code.  The claim states that every unification
failure, including an occurs-check violation, is one distinguished failure
value that the resolver recognises.  In the code, an occurs-check violation in
`unify_var` returns `False` while every other failure returns `None`; the
resolver only tests `theta is not None`, so it takes the `False` result of
unifying `P(x)` against `!P(f(x))` for a success and then crashes with a
`TypeError` when it applies `False` as a substitution to the merged clause
`(Q(a))`. -/
theorem C4_occurs_check_failure_not_distinguished :
    unify 32 (.cons (.str "x") .nil) (.cons (.lit "f" (.cons (.str "x") .nil)) .nil)
        (.ok []) ["x"] = (.pyfalse, ["x"]) ∧
    URes.pyfalse ≠ URes.pynone ∧
    PL_Resolve 32 [⟨"P", .cons (.str "x") .nil⟩, ⟨"Q", .cons (.str "a") .nil⟩]
        [⟨"!P", .cons (.lit "f" (.cons (.str "x") .nil)) .nil⟩] ["x"] = none :=
  ⟨rfl, by decide, rfl⟩

/-- C5: REFUTED by the code.  The claim states that `unify` returns the
failure value on argument lists of unequal length.  Unifying the argument
lists `[a]` and `[b, c]` instead reaches the list case with an empty list on
one side and evaluates `x[0]`, raising `IndexError` (modelled as a crash)
rather than returning the failure value. -/
theorem C5_arity_mismatch_crashes :
    unify 32 (.cons (.str "a") .nil) (.cons (.str "b") (.cons (.str "c") .nil))
      (.ok []) [] = (.crash, []) :=
  rfl

/-- C6 counterexample: the source unifies the tails of two argument lists
before the first elements (the inner Python call is evaluated first), not the
first elements before the tails as claimed.  On the lists `[a, f()]` and
`[b, f(c)]` with no variables, the claimed order fails on `a` against `b` and
returns `None` before ever touching the tails, while the source processes the
tails first and crashes inside them (an `IndexError` from unifying the
argument lists of `f()` and `f(c)`), so the two orders are observably
different. -/
theorem C6_list_order_cex :
    unify 20 (.cons (.str "a") (.cons (.lit "f" .nil) .nil))
        (.cons (.str "b") (.cons (.lit "f" (.cons (.str "c") .nil)) .nil))
        (.ok []) [] = (.crash, []) ∧
    unifySpec 20 (.cons (.str "a") (.cons (.lit "f" .nil) .nil))
        (.cons (.str "b") (.cons (.lit "f" (.cons (.str "c") .nil)) .nil))
        (.ok []) [] = (.pynone, []) ∧
    (URes.crash, ([] : List String)) ≠ (URes.pynone, ([] : List String)) :=
  ⟨rfl, rfl, by decide⟩

/-- C6 amended: when `unify` is given two non-empty argument lists, it first
unifies the remaining tails, then unifies the first elements using the
substitution (and variable table) resulting from the tail unification; when
both lists are empty it returns `theta` unchanged. -/
theorem C6_tails_first (fuel : Nat) (d : Theta) (hx tx hy ty : PyVal)
    (θ : URes) (vars vars2 : List String)
    (hne : PyVal.cons hx tx ≠ PyVal.cons hy ty) :
    unify (fuel + 1) (.cons hx tx) (.cons hy ty) (.ok d) vars =
      (let r := unify fuel tx ty (.ok d) vars
       unify fuel hx hy r.1 r.2) ∧
    unify (fuel + 1) .nil .nil θ vars2 = (θ, vars2) := by
  constructor
  · simp [unify, unifyAux, isVarIn, hne]
  · cases θ <;> rfl

/-- Witness for the amended C6 at a concrete input. -/
theorem C6_tails_first_witness :
    (unify 1 (.cons (.str "a") .nil) (.cons (.str "b") .nil) (.ok []) [] =
      (let r := unify 0 .nil .nil (.ok ([] : Theta)) ([] : List String)
       unify 0 (.str "a") (.str "b") r.1 r.2)) ∧
    unify 1 .nil .nil (.ok []) [] = (.ok [], []) :=
  C6_tails_first 0 [] (.str "a") .nil (.str "b") .nil (.ok []) [] [] (by decide)

/-- C7: CONFIRMED.  For the knowledge base consisting of the two unit clauses
`(P)` and `(!P)`, the saturation engine finds the complementary pair in the
first round, derives the empty clause, and returns the unsatisfiable verdict
`false` — for every round-fuel bound of at least one round and any
unification fuel (the propositional branch never calls `unify`). -/
theorem C7_complementary_units_unsat (fuel ufuel : Nat) :
    PL_Resolution (fuel + 1) ufuel [[litP], [litNP]] [] = some false :=
  rfl

/-- C9: CONFIRMED.  For the knowledge base consisting of the single clause
`(P, Q)`, the saturation engine terminates in its first round with the
satisfiable verdict `true` for every round-fuel bound of at least one round,
and its candidate log is empty: no pair is ever resolved, in particular the
clause is never resolved against itself (`get_pairs` excludes the originating
clause). -/
theorem C9_fixpoint_satisfiable (fuel ufuel : Nat) :
    PL_Resolution (fuel + 1) ufuel [[litP, litQ]] [] = some true ∧
    (PL_Resolution_rounds (fuel + 1) ufuel [[litP, litQ]] [] [] []).2 = [] :=
  ⟨rfl, rfl⟩

/-- C10: CONFIRMED.  For the empty knowledge base the candidate collection
finds nothing, the round produces no resolvents, the empty `new` set is a
subset of the knowledge base, and the engine returns the satisfiable verdict
`true` in its first round, for every round-fuel bound of at least one. -/
theorem C10_empty_kb_satisfiable (fuel ufuel : Nat) :
    PL_Resolution (fuel + 1) ufuel [] [] = some true :=
  rfl

/-- The swapped orientation of a clause pair. -/
def swapPair (p : ClausePair) : ClausePair := (p.2, p.1)

/-- No two entries of a candidate log coincide as unordered pairs: any two
logged pairs differ in both orientations. -/
def UnordDistinct (log : List ClausePair) : Prop :=
  log.Pairwise (fun p q => p ≠ q ∧ p ≠ swapPair q)

/-- Invariant of the candidate-collection fold of one round, relative to the
processed record `P0` at the start of the round: the record only grows, every
collected pair is recorded in both orientations, no collected pair was
recorded in either orientation at the start of the round, and the collected
pairs are pairwise distinct as unordered pairs. -/
def GoodState (P0 pairs processed : List ClausePair) : Prop :=
  P0 ⊆ processed ∧
  (∀ p ∈ pairs,
    p ∈ processed ∧ swapPair p ∈ processed ∧ p ∉ P0 ∧ swapPair p ∉ P0) ∧
  UnordDistinct pairs

/-- The inner match loop `add_pairs` preserves the collection invariant: a
pair is only appended when neither orientation is recorded yet, and both
orientations are recorded with it. -/
theorem add_pairs_good (c : Clause) (P0 : List ClausePair) :
    ∀ (M : List Clause) (pp : List ClausePair × List ClausePair),
      GoodState P0 pp.1 pp.2 →
      GoodState P0 (add_pairs c M pp).1 (add_pairs c M pp).2
  | [], _, h => h
  | m :: rest, pp, h => by
    rw [add_pairs]
    split
    · exact add_pairs_good c P0 rest pp h
    · rename_i hnin
      push_neg at hnin
      obtain ⟨h1, h2⟩ := hnin
      obtain ⟨hsub, hmem, hdis⟩ := h
      apply add_pairs_good c P0 rest
      refine ⟨hsub.trans (List.subset_append_left _ _), ?_, ?_⟩
      · intro p hp
        rcases List.mem_append.mp hp with hp | hp
        · obtain ⟨a1, a2, a3, a4⟩ := hmem p hp
          exact ⟨List.mem_append_left _ a1, List.mem_append_left _ a2, a3, a4⟩
        · simp only [List.mem_singleton] at hp
          subst hp
          refine ⟨?_, ?_, ?_, ?_⟩
          · exact List.mem_append_right _ (by simp)
          · exact List.mem_append_right _ (by simp [swapPair])
          · exact fun hc => h1 (hsub hc)
          · exact fun hc => h2 (hsub hc)
      · rw [UnordDistinct, List.pairwise_append]
        refine ⟨hdis, List.pairwise_singleton _ _, ?_⟩
        intro p hp q hq
        simp only [List.mem_singleton] at hq
        subst hq
        obtain ⟨hp1, _, _, _⟩ := hmem p hp
        constructor
        · intro he
          rw [he] at hp1
          exact h1 hp1
        · intro he
          rw [he] at hp1
          exact h2 hp1

/-- The per-round scan `collect_pairs` preserves the collection invariant. -/
theorem collect_pairs_good (P0 : List ClausePair) :
    ∀ (iter KB : List Clause) (pp : List ClausePair × List ClausePair),
      GoodState P0 pp.1 pp.2 →
      GoodState P0 (collect_pairs iter KB pp).1 (collect_pairs iter KB pp).2
  | [], _, _, h => h
  | clause :: rest, KB, pp, h =>
    collect_pairs_good P0 rest KB _ (add_pairs_good clause P0 _ pp h)

/-- Invariant of the round loop: every pair of the cumulative candidate log
is recorded in the processed record in both orientations, and the log is
duplicate-free as a list of unordered pairs. -/
def TotalGood (log P : List ClausePair) : Prop :=
  (∀ p ∈ log, p ∈ P ∧ swapPair p ∈ P) ∧ UnordDistinct log

/-- One candidate-collection phase extends the log while keeping the round
invariant: the freshly collected pairs were unrecorded at the start of the
round, while every previously logged pair was recorded, so no unordered pair
recurs. -/
theorem round_good (KB : List Clause) (P log : List ClausePair)
    (h : TotalGood log P) :
    TotalGood (log ++ (collect_pairs KB KB ([], P)).1)
      (collect_pairs KB KB ([], P)).2 := by
  have hstart : GoodState P ([] : List ClausePair) P :=
    ⟨List.Subset.refl _, by simp, List.Pairwise.nil⟩
  obtain ⟨hsub, hmem, hdis⟩ := collect_pairs_good P KB KB ([], P) hstart
  obtain ⟨hlog, hlogdis⟩ := h
  constructor
  · intro p hp
    rcases List.mem_append.mp hp with hp | hp
    · obtain ⟨a1, a2⟩ := hlog p hp
      exact ⟨hsub a1, hsub a2⟩
    · obtain ⟨a1, a2, _, _⟩ := hmem p hp
      exact ⟨a1, a2⟩
  · rw [UnordDistinct, List.pairwise_append]
    refine ⟨hlogdis, hdis, ?_⟩
    intro p hp q hq
    obtain ⟨hpP, _⟩ := hlog p hp
    obtain ⟨_, _, hqnP, hqsnP⟩ := hmem q hq
    constructor
    · intro he
      rw [he] at hpP
      exact hqnP hpP
    · intro he
      rw [he] at hpP
      exact hqsnP hpP

/-- Every run of the round loop keeps its candidate log duplicate-free as a
list of unordered pairs, for any starting state satisfying the round
invariant. -/
theorem rounds_log_distinct (fuel : Nat) :
    ∀ (ufuel : Nat) (KB : List Clause) (P : List ClausePair)
      (vars : List String) (log : List ClausePair),
      TotalGood log P →
      UnordDistinct (PL_Resolution_rounds fuel ufuel KB P vars log).2 := by
  induction fuel with
  | zero =>
    intro ufuel KB P vars log h
    exact h.2
  | succ fuel ih =>
    intro ufuel KB P vars log h
    have hr := round_good KB P log h
    simp only [PL_Resolution_rounds]
    split
    · exact hr.2
    · exact hr.2
    · rename_i nc v2 heq
      split
      · exact hr.2
      · exact ih ufuel (setUnion KB nc) (collect_pairs KB KB ([], P)).2 v2
          (log ++ (collect_pairs KB KB ([], P)).1) hr

/-- C8: CONFIRMED.  Across an entire run of `PL_Resolution` (whose verdict is
the first component of the instrumented round loop started on the empty
processed record and empty log), the same unordered pair of clauses is never
handed to the resolution phase twice, even across rounds as the knowledge
base grows: the candidate log is pairwise distinct in both orientations,
because both orientations of a pair enter the persistent processed record
when the pair is collected and recorded pairs are never collected again. -/
theorem C8_no_pair_resolved_twice (fuel ufuel : Nat) (KB : List Clause)
    (vars : List String) :
    PL_Resolution fuel ufuel KB vars
        = (PL_Resolution_rounds fuel ufuel KB [] vars []).1 ∧
    UnordDistinct (PL_Resolution_rounds fuel ufuel KB [] vars []).2 :=
  ⟨rfl, rounds_log_distinct fuel ufuel KB [] vars []
    ⟨fun p hp => absurd hp (List.not_mem_nil p), List.Pairwise.nil⟩⟩
